import Mathlib

/-!
Verification of the event-subscription library (single-source subscription
loop, naive subscription, naive merge coordinator, fake fetcher) against its
specification.  The concurrent Go code is shallowly embedded as explicit
state machines: each select arm of a loop becomes one event of a step
function, goroutine interleavings become event lists, and channel
rendezvous become recorded deliveries.  Time is in nanoseconds, as in Go's
time.Duration; Go's error values are Option String (none = nil).
-/

namespace RSS

/-- Item: subset of RSS fields.  GUID is the dedup key. -/
structure Item where
  Title : String
  Channel : String
  GUID : String
deriving DecidableEq

/-- One nanosecond-denominated millisecond, as in Go time.Millisecond. -/
def millisecond : Int := 1000000

/-- One nanosecond-denominated second, as in Go time.Second. -/
def second : Int := 1000000000

/-- The queue bound of the improved subscription loop (const maxPending = 10). -/
def maxPending : Nat := 10

/-- The result a fetch task posts back into the loop
(type fetchResult struct of sub.loop): the fetched batch, the suggested
next-attempt time, and the error. -/
structure fetchResult where
  fetched : List Item
  next : Int
  err : Option String
deriving DecidableEq

/-- The fetch timer delay computed at the top of each loop iteration:
zero unless the next-attempt time is strictly in the future
(if next.After(now) then fetchDelay = next.Sub(now)). -/
def fetchDelay (next now : Int) : Int :=
  if next > now then next - now else 0

/-- The successful-fetch integration of sub.loop: for each fetched item,
append it to pending and record its GUID iff the GUID is not already in
the seen set.  Go's map of string to bool is modelled as the list of its
keys in insertion order; membership is what the code consults. -/
def processFetched (fetched : List Item) (pending : List Item) (seen : List String) :
    List Item × List String :=
  fetched.foldl
    (fun acc item =>
      if item.GUID ∈ acc.2 then acc
      else (acc.1 ++ [item], acc.2 ++ [item.GUID]))
    (pending, seen)

/-- First-seen deduplication of a stream of items relative to an initial
seen set: keeps the first occurrence of each GUID, in order. -/
def dedupFrom (seen : List String) : List Item → List Item
  | [] => []
  | i :: rest =>
      if i.GUID ∈ seen then dedupFrom seen rest
      else i :: dedupFrom (seen ++ [i.GUID]) rest

/-- The state of the improved subscription loop (sub.loop), together with
its observable history.  inFlight counts outstanding fetch tasks
(fetchDone non-nil in the Go code); delivered records the items sent on
the updates channel; closeResult records the value sent back on the errc
channel when the loop acknowledges Close. -/
structure LoopState where
  pending : List Item
  next : Int
  err : Option String
  seen : List String
  inFlight : Nat
  closed : Bool
  delivered : List Item
  closeResult : Option (Option String)
deriving DecidableEq

/-- The loop's state when sub.loop starts: empty queue, zero time,
no error, empty seen set, no fetch in flight. -/
def initState : LoopState :=
  { pending := [], next := 0, err := none, seen := [], inFlight := 0,
    closed := false, delivered := [], closeResult := none }

/-- The four select arms of sub.loop, as events.  startFetch and fetchDone
carry the wall-clock time at which the arm runs. -/
inductive LoopEvent where
  | closeReq
  | startFetch (now : Int)
  | fetchDone (r : fetchResult) (now : Int)
  | deliver
deriving DecidableEq

/-- One iteration of sub.loop, firing the given select arm.  none means the
arm is not enabled in this state (its channel is nil, its guard fails, or
the loop has returned).  The startFetch arm is armed only when no fetch is
in flight and the queue has room, and the timer cannot fire before the
next-attempt time; fetchDone can fire only with a fetch outstanding; on a
failed fetch the error is recorded, the next attempt is set 10 seconds
from now and the queue and seen set are untouched; deliver offers exactly
the head of a non-empty queue. -/
def step (s : LoopState) (e : LoopEvent) : Option LoopState :=
  if s.closed then none
  else
    match e with
    | LoopEvent.closeReq =>
        some { s with closed := true, closeResult := some s.err }
    | LoopEvent.startFetch now =>
        if s.inFlight = 0 ∧ s.pending.length < maxPending ∧ s.next ≤ now then
          some { s with inFlight := s.inFlight + 1 }
        else none
    | LoopEvent.fetchDone r now =>
        if s.inFlight = 0 then none
        else
          match r.err with
          | some e0 =>
              some { s with inFlight := s.inFlight - 1, err := some e0,
                            next := now + 10 * second }
          | none =>
              some { s with inFlight := s.inFlight - 1, err := none, next := r.next,
                            pending := (processFetched r.fetched s.pending s.seen).1,
                            seen := (processFetched r.fetched s.pending s.seen).2 }
    | LoopEvent.deliver =>
        match s.pending with
        | [] => none
        | first :: rest =>
            some { s with pending := rest, delivered := s.delivered ++ [first] }

/-- Run the loop through a list of events; none if some event is not
enabled where it occurs. -/
def run (s : LoopState) : List LoopEvent → Option LoopState
  | [] => some s
  | e :: es =>
      match step s e with
      | none => none
      | some s' => run s' es

/-- The concatenation, in order, of the batches of all successful fetch
completions in a trace. -/
def okItems : List LoopEvent → List Item
  | [] => []
  | LoopEvent.fetchDone r _ :: es =>
      (if r.err = none then r.fetched else []) ++ okItems es
  | _ :: es => okItems es

/-- The error of the most recent completed fetch in a trace (none if no
fetch completed, or the most recent completed fetch succeeded). -/
def lastFetchErr (es : List LoopEvent) : Option String :=
  es.foldl
    (fun acc e =>
      match e with
      | LoopEvent.fetchDone r _ => r.err
      | _ => acc)
    none

/-- Bounds the batch size of every fetch completion event by k. -/
def batchLe (k : Nat) : LoopEvent → Bool
  | LoopEvent.fetchDone r _ => decide (r.fetched.length ≤ k)
  | _ => true

/-!
The naive subscription (naiveSub).  Its loop body is: check the closed
flag at the top (closing the stream and returning if set), call Fetch, on
failure record the error and sleep, otherwise send every item of the
batch, then sleep until the next-attempt time.  Close just sets the flag
and returns the currently recorded error.  Each of these points is a
phase; Close can interleave at any of them.
-/

/-- Where the naiveSub.loop body currently is: about to check the closed
flag, about to call Fetch, sending the remainder of a fetched batch, or
returned (stream closed). -/
inductive NaivePhase where
  | top
  | fetching
  | sending (remaining : List Item)
  | halted
deriving DecidableEq

/-- State of a naiveSub together with its observable history.  closeRet
records, in order, the value returned by each call of naiveSub.Close. -/
structure NaiveState where
  closed : Bool
  err : Option String
  streamClosed : Bool
  delivered : List Item
  phase : NaivePhase
  closeRet : List (Option String)
deriving DecidableEq

/-- A fresh naiveSub as built by NaiveSubscribe. -/
def naiveInit : NaiveState :=
  { closed := false, err := none, streamClosed := false, delivered := [],
    phase := NaivePhase.top, closeRet := [] }

/-- Interleaving points of the naiveSub: the public Close call (runs in the
caller's goroutine, enabled at any moment), and the loop's own steps. -/
inductive NaiveEvent where
  | closeCall
  | checkClosed
  | checkOpen
  | fetchSuccess (items : List Item) (next : Int)
  | fetchFailure (e : String)
  | sendOne
  | batchEnd
deriving DecidableEq

/-- One atomic step of the naive subscription.  closeCall is naiveSub.Close:
it sets the flag and returns the currently recorded error without any
rendezvous, in every state.  checkClosed / checkOpen are the flag test at
the top of the loop; only checkClosed closes the stream.  fetchFailure
records the error and goes back to the top (after the 10 second sleep);
fetchSuccess begins delivering the batch; sendOne delivers one item even
if the closed flag is already set, because the loop only re-reads the
flag at the top. -/
def naiveStep (s : NaiveState) (e : NaiveEvent) : Option NaiveState :=
  match e with
  | NaiveEvent.closeCall =>
      some { s with closed := true, closeRet := s.closeRet ++ [s.err] }
  | NaiveEvent.checkClosed =>
      match s.phase with
      | NaivePhase.top =>
          if s.closed then
            some { s with streamClosed := true, phase := NaivePhase.halted }
          else none
      | _ => none
  | NaiveEvent.checkOpen =>
      match s.phase with
      | NaivePhase.top =>
          if s.closed then none else some { s with phase := NaivePhase.fetching }
      | _ => none
  | NaiveEvent.fetchSuccess items _ =>
      match s.phase with
      | NaivePhase.fetching => some { s with phase := NaivePhase.sending items }
      | _ => none
  | NaiveEvent.fetchFailure e0 =>
      match s.phase with
      | NaivePhase.fetching => some { s with err := some e0, phase := NaivePhase.top }
      | _ => none
  | NaiveEvent.sendOne =>
      match s.phase with
      | NaivePhase.sending (first :: rest) =>
          some { s with delivered := s.delivered ++ [first],
                        phase := NaivePhase.sending rest }
      | _ => none
  | NaiveEvent.batchEnd =>
      match s.phase with
      | NaivePhase.sending [] => some { s with phase := NaivePhase.top }
      | _ => none

/-- Run the naive subscription through a list of events. -/
def naiveRun (s : NaiveState) : List NaiveEvent → Option NaiveState
  | [] => some s
  | e :: es =>
      match naiveStep s e with
      | none => none
      | some s' => naiveRun s' es

/-!
The naive merge coordinator (naiveMerge).  NaiveMerge spawns one
forwarding goroutine per child which ranges over the child's stream and
sends each item to the shared output channel; naiveMerge.Close closes each
child in order, folding their errors, then closes the output channel and
returns the folded error.  Children are abstracted by the list of items
their streams have yet to yield (a closed child stream yields nothing
further) and the predetermined error of their Close call.
-/

/-- The error folding of naiveMerge.Close: err starts nil and is assigned
a child's close error only when err is still nil and that error is
non-nil. -/
def naiveMergeCloseErr (errs : List (Option String)) : Option String :=
  errs.foldl (fun err e => if err = none ∧ ¬e = none then e else err) none

/-- A forwarding goroutine of naiveMerge: waiting to receive from its
child, holding an item it is trying to send to the merged output, or
exited (its range loop ended on the closed child stream). -/
inductive FwdState where
  | waiting
  | holding (it : Item)
  | exited
deriving DecidableEq

/-- State of a naiveMerge run.  closerPC is how many children the Close
call has already closed; sent records the items delivered on the merged
output; panicked records a send on the already-closed output channel. -/
structure MergeState where
  childStreams : List (List Item)
  childClosed : List Bool
  fwd : List FwdState
  closerPC : Nat
  outputClosed : Bool
  sent : List Item
  closeReturned : Option (Option String)
  panicked : Bool
deriving DecidableEq

/-- A fresh naiveMerge over children whose streams will yield the given
item lists: every forwarder waiting, no child closed, Close not started. -/
def mergeInit (streams : List (List Item)) : MergeState :=
  { childStreams := streams,
    childClosed := List.replicate streams.length false,
    fwd := List.replicate streams.length FwdState.waiting,
    closerPC := 0, outputClosed := false, sent := [],
    closeReturned := none, panicked := false }

/-- Interleaving points of naiveMerge: forwarder i receives from its child,
sends to the merged output, or exits; the Close call closes its next child
or, after all children, closes the output and returns. -/
inductive MergeEvent where
  | recv (i : Nat)
  | send (i : Nat)
  | exitFwd (i : Nat)
  | closeChild
  | closeOutput
deriving DecidableEq

/-- One atomic step of a naiveMerge run, given the predetermined close
errors ce of the children.  Closing a child closes its stream, so its
remaining items are discarded and its forwarder can exit once waiting.
Close closes children strictly in order and only closes the output after
the last child; it never waits for the forwarders.  A forwarder that
observes the output channel already closed when it sends panics, as in
Go. -/
def mergeStep (ce : List (Option String)) (st : MergeState) (e : MergeEvent) :
    Option MergeState :=
  match e with
  | MergeEvent.recv i =>
      match st.fwd[i]?, st.childStreams[i]?, st.childClosed[i]? with
      | some FwdState.waiting, some (first :: rest), some false =>
          some { st with fwd := st.fwd.set i (FwdState.holding first),
                         childStreams := st.childStreams.set i rest }
      | _, _, _ => none
  | MergeEvent.send i =>
      match st.fwd[i]? with
      | some (FwdState.holding x) =>
          if st.outputClosed then some { st with panicked := true }
          else some { st with fwd := st.fwd.set i FwdState.waiting,
                              sent := st.sent ++ [x] }
      | _ => none
  | MergeEvent.exitFwd i =>
      match st.fwd[i]?, st.childStreams[i]?, st.childClosed[i]? with
      | some FwdState.waiting, some [], some true =>
          some { st with fwd := st.fwd.set i FwdState.exited }
      | _, _, _ => none
  | MergeEvent.closeChild =>
      if st.closerPC < st.childClosed.length then
        some { st with childClosed := st.childClosed.set st.closerPC true,
                       childStreams := st.childStreams.set st.closerPC [],
                       closerPC := st.closerPC + 1 }
      else none
  | MergeEvent.closeOutput =>
      if st.closerPC = st.childClosed.length ∧ st.outputClosed = false then
        some { st with outputClosed := true,
                       closeReturned := some (naiveMergeCloseErr ce) }
      else none

/-- Run the naiveMerge through a list of events. -/
def mergeRun (ce : List (Option String)) (st : MergeState) :
    List MergeEvent → Option MergeState
  | [] => some st
  | e :: es =>
      match mergeStep ce st e with
      | none => none
      | some st' => mergeRun ce st' es

/-!
The fake fetcher (fakeFetcher.Fetch): generates item n on its n-th call,
remembers all generated items, and returns either just the new item or,
when FakeDuplicates is set, every item generated so far.  It never fails.
-/

/-- fakeFetcher: the configured channel (domain) and all items generated
so far. -/
structure fakeFetcher where
  channel : String
  items : List Item
deriving DecidableEq

/-- The triple fakeFetcher.Fetch returns: items, next-attempt time,
error. -/
structure FakeFetchOut where
  items : List Item
  next : Int
  err : Option String
deriving DecidableEq

/-- fakeFetcher.Fetch.  rand stands for the value of rand.Intn(5); the
next-attempt time is now plus rand times 500 milliseconds.  The new item's
Title embeds the number of items generated before it, and its GUID is
Channel, a slash, and Title.  Returns the Go function's results together
with the updated receiver. -/
def fakeFetcher.Fetch (fakeDuplicates : Bool) (f : fakeFetcher) (now rand : Int) :
    FakeFetchOut × fakeFetcher :=
  let next := now + rand * (500 * millisecond)
  let title := "Item " ++ toString f.items.length
  let item : Item := { Channel := f.channel, Title := title,
                       GUID := f.channel ++ "/" ++ title }
  let f' : fakeFetcher := { f with items := f.items ++ [item] }
  let out := if fakeDuplicates then f'.items else [item]
  (⟨out, next, none⟩, f')

/-- The fetcher state after n calls of Fetch, with the call times and rand
draws supplied by oracles. -/
def fakeRun (fakeDuplicates : Bool) (f : fakeFetcher) (nows rands : Nat → Int) :
    Nat → fakeFetcher
  | 0 => f
  | n + 1 =>
      (fakeFetcher.Fetch fakeDuplicates (fakeRun fakeDuplicates f nows rands n)
        (nows n) (rands n)).2

/-- The item the fake fetcher generates on its k-th call (counting from
zero) for a given domain. -/
def genItem (domain : String) (k : Nat) : Item :=
  { Title := "Item " ++ toString k, Channel := domain,
    GUID := domain ++ "/" ++ ("Item " ++ toString k) }

/-! Concrete items and traces used by witnesses and counterexamples. -/

/-- A sample item. -/
def itemA : Item := { Title := "A", Channel := "ch", GUID := "ch/A" }

/-- A second sample item with a distinct GUID. -/
def itemB : Item := { Title := "B", Channel := "ch", GUID := "ch/B" }

/-- Scenario trace for deduplication: the first fetch returns only itemA,
the second returns itemA again followed by itemB, and the consumer then
accepts two deliveries. -/
def c1Events : List LoopEvent :=
  [LoopEvent.startFetch 0,
   LoopEvent.fetchDone { fetched := [itemA], next := 5, err := none } 0,
   LoopEvent.startFetch 5,
   LoopEvent.fetchDone { fetched := [itemA, itemB], next := 9, err := none } 6,
   LoopEvent.deliver, LoopEvent.deliver]

/-- The loop state after c1Events. -/
def c1Final : LoopState :=
  { pending := [], next := 9, err := none, seen := ["ch/A", "ch/B"],
    inFlight := 0, closed := false, delivered := [itemA, itemB],
    closeResult := none }

/-- Eleven items with pairwise distinct GUIDs, as one fetch batch. -/
def c2Items : List Item :=
  [{ Title := "0", Channel := "c", GUID := "c/0" },
   { Title := "1", Channel := "c", GUID := "c/1" },
   { Title := "2", Channel := "c", GUID := "c/2" },
   { Title := "3", Channel := "c", GUID := "c/3" },
   { Title := "4", Channel := "c", GUID := "c/4" },
   { Title := "5", Channel := "c", GUID := "c/5" },
   { Title := "6", Channel := "c", GUID := "c/6" },
   { Title := "7", Channel := "c", GUID := "c/7" },
   { Title := "8", Channel := "c", GUID := "c/8" },
   { Title := "9", Channel := "c", GUID := "c/9" },
   { Title := "10", Channel := "c", GUID := "c/10" }]

/-- Trace in which a single fetch, started with an empty queue, returns
the eleven distinct items at once. -/
def c2Events : List LoopEvent :=
  [LoopEvent.startFetch 0,
   LoopEvent.fetchDone { fetched := c2Items, next := 0, err := none } 0]

/-- The loop state after c2Events: the queue holds all eleven items. -/
def c2Final : LoopState :=
  { pending := c2Items, next := 0, err := none, seen := c2Items.map Item.GUID,
    inFlight := 0, closed := false, delivered := [], closeResult := none }

/-- A trace exhausted only by the c2 witness: one single-item fetch. -/
def c2WitEvents : List LoopEvent :=
  [LoopEvent.startFetch 0,
   LoopEvent.fetchDone { fetched := [itemA], next := 0, err := none } 0]

/-- The loop state after c2WitEvents. -/
def c2WitFinal : LoopState :=
  { pending := [itemA], next := 0, err := none, seen := ["ch/A"],
    inFlight := 0, closed := false, delivered := [], closeResult := none }

/-- Trace for the close-result counterexample: a fetch fails, a later
fetch succeeds, then Close is called. -/
def c5Events : List LoopEvent :=
  [LoopEvent.startFetch 0,
   LoopEvent.fetchDone { fetched := [], next := 0, err := some "boom" } 0,
   LoopEvent.startFetch (10 * second),
   LoopEvent.fetchDone { fetched := [], next := 0, err := none } (10 * second),
   LoopEvent.closeReq]

/-- The loop state after c5Events: closed, and Close was answered with no
error although a fetch had failed earlier. -/
def c5Final : LoopState :=
  { pending := [], next := 0, err := none, seen := [], inFlight := 0,
    closed := true, delivered := [], closeResult := some none }

/-- A loop state with one fetch in flight, used to exercise the failed
fetch completion arm. -/
def c4Start : LoopState :=
  { pending := [itemA], next := 0, err := none, seen := ["ch/A"],
    inFlight := 1, closed := false, delivered := [itemB],
    closeResult := none }

/-- c4Start after its in-flight fetch completes with failure boom at
time 7. -/
def c4End : LoopState :=
  { pending := [itemA], next := 7 + 10 * second, err := some "boom",
    seen := ["ch/A"], inFlight := 0, closed := false, delivered := [itemB],
    closeResult := none }

/-- Merge trace for the shutdown race: the only child's forwarder receives
the child's item and is about to send it when Close closes the child and
then the output. -/
def c8Events : List MergeEvent :=
  [MergeEvent.recv 0, MergeEvent.closeChild, MergeEvent.closeOutput]

/-- The merge state after c8Events: output closed while the forwarder
still holds an item it has not sent. -/
def c8Final : MergeState :=
  { childStreams := [[]], childClosed := [true],
    fwd := [FwdState.holding itemA], closerPC := 1, outputClosed := true,
    sent := [], closeReturned := some none, panicked := false }

/-- The zero-children merge right after its Close: output closed, no
error returned. -/
def c7Closed : MergeState :=
  { childStreams := [], childClosed := [], fwd := [], closerPC := 0,
    outputClosed := true, sent := [], closeReturned := some none,
    panicked := false }

/-- naiveSub trace up to a Close call that lands in the middle of a
two-item batch: the loop has delivered itemA and still has itemB to send
when Close returns. -/
def c10Pre : List NaiveEvent :=
  [NaiveEvent.checkOpen, NaiveEvent.fetchSuccess [itemA, itemB] 0,
   NaiveEvent.sendOne, NaiveEvent.closeCall]

/-- naiveSub state after c10Pre: Close has returned (with no error), the
stream is not closed, and itemB is still to be sent. -/
def c10Mid : NaiveState :=
  { closed := true, err := none, streamClosed := false, delivered := [itemA],
    phase := NaivePhase.sending [itemB], closeRet := [none] }

/-- The remainder of the naiveSub run: the loop finishes the batch and
only then observes the flag and closes the stream. -/
def c10Post : List NaiveEvent :=
  [NaiveEvent.sendOne, NaiveEvent.batchEnd, NaiveEvent.checkClosed]

/-- naiveSub state after c10Pre then c10Post: itemB was delivered after
Close returned, and the stream is now closed. -/
def c10Fin : NaiveState :=
  { closed := true, err := none, streamClosed := true,
    delivered := [itemA, itemB], phase := NaivePhase.halted,
    closeRet := [none] }

/-- A naiveSub state at the top of its loop with the closed flag set,
used to exercise the flag check. -/
def c10WitSt : NaiveState :=
  { closed := true, err := some "boom", streamClosed := false,
    delivered := [itemA], phase := NaivePhase.top, closeRet := [some "boom"] }

/-! Generic invariant lemmas over the three runs. -/

/-- An invariant preserved by every enabled loop step holds in every state
a run reaches. -/
theorem run_inv (P : LoopState → Prop)
    (hstep : ∀ s e s', step s e = some s' → P s → P s') :
    ∀ es s s', P s → run s es = some s' → P s' := by
  intro es
  induction es with
  | nil =>
      intro s s' hP h
      simp only [run] at h
      exact (Option.some.inj h) ▸ hP
  | cons e es ih =>
      intro s s' hP h
      simp only [run] at h
      cases hst : step s e with
      | none => rw [hst] at h; exact absurd h (by simp)
      | some s1 => rw [hst] at h; exact ih s1 s' (hstep s e s1 hst hP) h

/-- An invariant preserved by every enabled loop step whose event
satisfies Q holds in every state reached by a run of Q-events. -/
theorem run_inv_ev (Q : LoopEvent → Prop) (P : LoopState → Prop)
    (hstep : ∀ s e s', Q e → step s e = some s' → P s → P s') :
    ∀ es s s', (∀ e ∈ es, Q e) → P s → run s es = some s' → P s' := by
  intro es
  induction es with
  | nil =>
      intro s s' _ hP h
      simp only [run] at h
      exact (Option.some.inj h) ▸ hP
  | cons e es ih =>
      intro s s' hQ hP h
      simp only [run] at h
      cases hst : step s e with
      | none => rw [hst] at h; exact absurd h (by simp)
      | some s1 =>
          rw [hst] at h
          exact ih s1 s' (fun x hx => hQ x (List.mem_cons_of_mem _ hx))
            (hstep s e s1 (hQ e (List.mem_cons_self _ _)) hst hP) h

/-- A trace-indexed invariant preserved by every enabled loop step holds
at the end of every run, indexed by the whole trace. -/
theorem run_inv_trace (P : List LoopEvent → LoopState → Prop)
    (hstep : ∀ pre s e s', step s e = some s' → P pre s → P (pre ++ [e]) s') :
    ∀ es pre s s', P pre s → run s es = some s' → P (pre ++ es) s' := by
  intro es
  induction es with
  | nil =>
      intro pre s s' hP h
      simp only [run] at h
      simpa using (Option.some.inj h) ▸ hP
  | cons e es ih =>
      intro pre s s' hP h
      simp only [run] at h
      cases hst : step s e with
      | none => rw [hst] at h; exact absurd h (by simp)
      | some s1 =>
          rw [hst] at h
          have := ih (pre ++ [e]) s1 s' (hstep pre s e s1 hst hP) h
          simpa using this

/-- An invariant preserved by every enabled merge step holds in every
state a merge run reaches. -/
theorem mergeRun_inv (ce : List (Option String)) (P : MergeState → Prop)
    (hstep : ∀ st e st', mergeStep ce st e = some st' → P st → P st') :
    ∀ es st st', P st → mergeRun ce st es = some st' → P st' := by
  intro es
  induction es with
  | nil =>
      intro st st' hP h
      simp only [mergeRun] at h
      exact (Option.some.inj h) ▸ hP
  | cons e es ih =>
      intro st st' hP h
      simp only [mergeRun] at h
      cases hst : mergeStep ce st e with
      | none => rw [hst] at h; exact absurd h (by simp)
      | some st1 => rw [hst] at h; exact ih st1 st' (hstep st e st1 hst hP) h

/-! Lemmas about the dedup bookkeeping. -/

/-- processFetched appends exactly the first-seen-deduplicated batch to the
queue and its GUIDs to the seen set. -/
theorem processFetched_eq (fetched : List Item) :
    ∀ pending seen, processFetched fetched pending seen =
      (pending ++ dedupFrom seen fetched,
       seen ++ (dedupFrom seen fetched).map Item.GUID) := by
  induction fetched with
  | nil => intro pending seen; simp [processFetched, dedupFrom]
  | cons i rest ih =>
      intro pending seen
      by_cases h : i.GUID ∈ seen
      · have h1 : processFetched (i :: rest) pending seen
            = processFetched rest pending seen := by
          simp [processFetched, List.foldl_cons, h]
        rw [h1, ih]
        simp [dedupFrom, h]
      · have h1 : processFetched (i :: rest) pending seen
            = processFetched rest (pending ++ [i]) (seen ++ [i.GUID]) := by
          simp [processFetched, List.foldl_cons, h]
        rw [h1, ih]
        simp [dedupFrom, h, List.append_assoc]

/-- dedupFrom over a concatenation: the second part is deduplicated
against the seen set extended with the GUIDs kept from the first part. -/
theorem dedupFrom_append (xs : List Item) :
    ∀ ys seen, dedupFrom seen (xs ++ ys) =
      dedupFrom seen xs ++
        dedupFrom (seen ++ (dedupFrom seen xs).map Item.GUID) ys := by
  induction xs with
  | nil => intro ys seen; simp [dedupFrom]
  | cons i rest ih =>
      intro ys seen
      by_cases h : i.GUID ∈ seen
      · simp [dedupFrom, h, ih]
      · simp only [List.cons_append, dedupFrom, h, if_neg, ite_false,
          List.map_cons, List.append_eq]
        rw [ih ys (seen ++ [i.GUID])]
        simp [List.append_assoc]

/-- The GUIDs kept by dedupFrom avoid the seen set and are pairwise
distinct. -/
theorem dedupFrom_nodup (xs : List Item) :
    ∀ seen, (∀ g ∈ (dedupFrom seen xs).map Item.GUID, g ∉ seen) ∧
      ((dedupFrom seen xs).map Item.GUID).Nodup := by
  induction xs with
  | nil => intro seen; simp [dedupFrom]
  | cons i rest ih =>
      intro seen
      by_cases h : i.GUID ∈ seen
      · simpa [dedupFrom, h] using ih seen
      · have ih' := ih (seen ++ [i.GUID])
        constructor
        · intro g hg
          simp only [dedupFrom, h, ite_false, List.map_cons, List.mem_cons] at hg
          rcases hg with rfl | hg
          · exact h
          · intro hgseen
            exact (ih'.1 g hg) (by simp [hgseen])
        · simp only [dedupFrom, h, ite_false, List.map_cons, List.nodup_cons]
          refine ⟨fun hmem => ?_, ih'.2⟩
          exact (ih'.1 _ hmem) (by simp)

/-- dedupFrom keeps at most as many items as the batch contains. -/
theorem dedupFrom_length_le (xs : List Item) :
    ∀ seen, (dedupFrom seen xs).length ≤ xs.length := by
  induction xs with
  | nil => intro seen; simp [dedupFrom]
  | cons i rest ih =>
      intro seen
      by_cases h : i.GUID ∈ seen
      · simp only [dedupFrom, h, ite_true]
        exact Nat.le_succ_of_le (ih seen)
      · simp only [dedupFrom, h, ite_false, List.length_cons]
        exact Nat.succ_le_succ (ih (seen ++ [i.GUID]))

/-- okItems distributes over trace concatenation. -/
theorem okItems_append (xs : List LoopEvent) :
    ∀ ys, okItems (xs ++ ys) = okItems xs ++ okItems ys := by
  induction xs with
  | nil => intro ys; simp [okItems]
  | cons e xs ih =>
      intro ys
      cases e with
      | fetchDone r now => simp [okItems, ih, List.append_assoc]
      | closeReq => simpa [okItems] using ih ys
      | startFetch now => simpa [okItems] using ih ys
      | deliver => simpa [okItems] using ih ys

/-- Complete case analysis of an enabled loop step: the loop had not
returned, and the step is one of the five outcomes of the select. -/
theorem step_cases (s : LoopState) (e : LoopEvent) (s' : LoopState)
    (h : step s e = some s') :
    s.closed = false ∧
    ((e = LoopEvent.closeReq ∧
        s' = { s with closed := true, closeResult := some s.err }) ∨
     (∃ now, e = LoopEvent.startFetch now ∧ s.inFlight = 0 ∧
        s.pending.length < maxPending ∧ s.next ≤ now ∧
        s' = { s with inFlight := s.inFlight + 1 }) ∨
     (∃ r now e0, e = LoopEvent.fetchDone r now ∧ ¬s.inFlight = 0 ∧
        r.err = some e0 ∧
        s' = { s with inFlight := s.inFlight - 1, err := some e0,
                      next := now + 10 * second }) ∨
     (∃ r now, e = LoopEvent.fetchDone r now ∧ ¬s.inFlight = 0 ∧
        r.err = none ∧
        s' = { s with inFlight := s.inFlight - 1, err := none, next := r.next,
                      pending := s.pending ++ dedupFrom s.seen r.fetched,
                      seen := s.seen ++
                        (dedupFrom s.seen r.fetched).map Item.GUID }) ∨
     (∃ first rest, e = LoopEvent.deliver ∧ s.pending = first :: rest ∧
        s' = { s with pending := rest,
                      delivered := s.delivered ++ [first] })) := by
  unfold step at h
  by_cases hc : s.closed = true
  · rw [if_pos hc] at h
    exact absurd h (by simp)
  · rw [if_neg hc] at h
    refine ⟨Bool.not_eq_true _ ▸ hc, ?_⟩
    cases e with
    | closeReq =>
        dsimp only at h
        exact Or.inl ⟨rfl, (Option.some.inj h).symm⟩
    | startFetch now =>
        dsimp only at h
        by_cases hcond : s.inFlight = 0 ∧ s.pending.length < maxPending ∧
            s.next ≤ now
        · rw [if_pos hcond] at h
          exact Or.inr (Or.inl ⟨now, rfl, hcond.1, hcond.2.1, hcond.2.2,
            (Option.some.inj h).symm⟩)
        · rw [if_neg hcond] at h
          exact absurd h (by simp)
    | fetchDone r now =>
        dsimp only at h
        by_cases hif : s.inFlight = 0
        · rw [if_pos hif] at h
          exact absurd h (by simp)
        · rw [if_neg hif] at h
          cases herr : r.err with
          | some e0 =>
              rw [herr] at h
              dsimp only at h
              exact Or.inr (Or.inr (Or.inl ⟨r, now, e0, rfl, hif, herr,
                (Option.some.inj h).symm⟩))
          | none =>
              rw [herr] at h
              dsimp only at h
              refine Or.inr (Or.inr (Or.inr (Or.inl ⟨r, now, rfl, hif, herr, ?_⟩)))
              rw [← Option.some.inj h, processFetched_eq]
    | deliver =>
        dsimp only at h
        cases hp : s.pending with
        | nil =>
            rw [hp] at h
            exact absurd h (by simp)
        | cons first rest =>
            rw [hp] at h
            dsimp only at h
            exact Or.inr (Or.inr (Or.inr (Or.inr ⟨first, rest, rfl, rfl,
              (Option.some.inj h).symm⟩)))

/-- The dedup invariant of sub.loop: the seen set is exactly the GUIDs of
the items enqueued so far (delivered plus still pending, in enqueue
order), and those items are the first-seen deduplication of the
concatenation of all successfully fetched batches of the trace. -/
def DedupInv (pre : List LoopEvent) (s : LoopState) : Prop :=
  s.seen = (s.delivered ++ s.pending).map Item.GUID ∧
  s.delivered ++ s.pending = dedupFrom [] (okItems pre)

/-- Every enabled loop step preserves the dedup invariant. -/
theorem dedupInv_step (pre : List LoopEvent) (s : LoopState) (e : LoopEvent)
    (s' : LoopState) (h : step s e = some s') (hP : DedupInv pre s) :
    DedupInv (pre ++ [e]) s' := by
  obtain ⟨-, hcase⟩ := step_cases s e s' h
  obtain ⟨hseen, hitems⟩ := hP
  rcases hcase with ⟨he, rfl⟩ | ⟨now, he, h1, h2, h3, rfl⟩ |
      ⟨r, now, e0, he, h1, h2, rfl⟩ | ⟨r, now, he, h1, h2, rfl⟩ |
      ⟨first, rest, he, hpend, rfl⟩
  · subst he
    exact ⟨hseen, by rw [okItems_append]; simpa [okItems] using hitems⟩
  · subst he
    exact ⟨hseen, by rw [okItems_append]; simpa [okItems] using hitems⟩
  · subst he
    exact ⟨hseen, by rw [okItems_append]; simpa [okItems, h2] using hitems⟩
  · subst he
    constructor
    · show s.seen ++ (dedupFrom s.seen r.fetched).map Item.GUID
        = ((s.delivered ++ (s.pending ++ dedupFrom s.seen r.fetched)).map Item.GUID)
      rw [hseen]
      simp [List.append_assoc]
    · show s.delivered ++ (s.pending ++ dedupFrom s.seen r.fetched)
        = dedupFrom [] (okItems (pre ++ [LoopEvent.fetchDone r now]))
      rw [okItems_append]
      have hok : okItems [LoopEvent.fetchDone r now] = r.fetched := by
        simp [okItems, h2]
      rw [hok, dedupFrom_append, ← hitems, List.nil_append, ← hseen,
        List.append_assoc]
  · subst he
    constructor
    · show s.seen = ((s.delivered ++ [first]) ++ rest).map Item.GUID
      rw [hseen, hpend]
      simp
    · show (s.delivered ++ [first]) ++ rest = dedupFrom [] (okItems (pre ++ [LoopEvent.deliver]))
      rw [okItems_append]
      have : (s.delivered ++ [first]) ++ rest = s.delivered ++ s.pending := by
        rw [hpend]; simp
      rw [this]
      simpa [okItems] using hitems

/-- C1: over any enabled event sequence of the improved subscription loop,
the items enqueued over the subscription's lifetime (delivered plus still
pending, in order) carry pairwise distinct GUIDs — so each identity is
enqueued and delivered at most once — and they are exactly the first-seen
deduplication, in first-seen order, of the concatenation of all
successfully fetched batches; the delivered items form a prefix of that
deduplication.  In particular, fetches of itemA and then itemA, itemB
deliver exactly itemA then itemB (see the witness). -/
theorem c1_dedup_first_seen (es : List LoopEvent) (s' : LoopState)
    (h : run initState es = some s') :
    ((s'.delivered ++ s'.pending).map Item.GUID).Nodup ∧
    s'.delivered ++ s'.pending = dedupFrom [] (okItems es) ∧
    s'.seen = (s'.delivered ++ s'.pending).map Item.GUID := by
  have hinit : DedupInv [] initState := by
    constructor <;> simp [initState, okItems, dedupFrom]
  have hinv : DedupInv ([] ++ es) s' :=
    run_inv_trace DedupInv dedupInv_step es [] initState s' hinit h
  rw [List.nil_append] at hinv
  refine ⟨?_, hinv.2, hinv.1⟩
  rw [hinv.2]
  exact (dedupFrom_nodup (okItems es) []).2

/-- C1 witness: the scenario where the first fetch returns itemA and the
second returns itemA again followed by itemB; the consumer observes
exactly itemA then itemB, never itemA twice. -/
theorem c1_dedup_first_seen_witness :
    ((c1Final.delivered ++ c1Final.pending).map Item.GUID).Nodup ∧
    c1Final.delivered ++ c1Final.pending = dedupFrom [] (okItems c1Events) ∧
    c1Final.delivered = [itemA, itemB] :=
  ⟨(c1_dedup_first_seen c1Events c1Final (by decide)).1,
   (c1_dedup_first_seen c1Events c1Final (by decide)).2.1,
   by decide⟩

/-- The queue occupancy invariant of sub.loop when every fetch batch holds
at most k items: at most one fetch outstanding, the queue strictly below
maxPending whenever a fetch is outstanding (it was below maxPending when
the fetch was armed and only delivery has touched it since), and the
queue never longer than maxPending - 1 + k. -/
def BoundInv (k : Nat) (s : LoopState) : Prop :=
  s.pending.length ≤ maxPending - 1 + k ∧
  (s.inFlight = 1 → s.pending.length < maxPending) ∧
  s.inFlight ≤ 1

/-- Every enabled loop step whose fetch batch (if any) has at most k items
preserves the occupancy invariant. -/
theorem boundInv_step (k : Nat) (s : LoopState) (e : LoopEvent) (s' : LoopState)
    (hQ : batchLe k e = true) (h : step s e = some s') (hP : BoundInv k s) :
    BoundInv k s' := by
  obtain ⟨-, hcase⟩ := step_cases s e s' h
  obtain ⟨hlen, hroom, hone⟩ := hP
  rcases hcase with ⟨he, rfl⟩ | ⟨now, he, h1, h2, h3, rfl⟩ |
      ⟨r, now, e0, he, h1, h2, rfl⟩ | ⟨r, now, he, h1, h2, rfl⟩ |
      ⟨first, rest, he, hpend, rfl⟩
  · exact ⟨hlen, hroom, hone⟩
  · refine ⟨hlen, fun _ => h2, ?_⟩
    show s.inFlight + 1 ≤ 1
    omega
  · refine ⟨hlen, ?_, ?_⟩
    · intro hf
      have hf' : s.inFlight - 1 = 1 := hf
      exact absurd hf' (by omega)
    · show s.inFlight - 1 ≤ 1
      omega
  · subst he
    have hin1 : s.inFlight = 1 := by omega
    have hroom' := hroom hin1
    have hk : r.fetched.length ≤ k := by simpa [batchLe] using hQ
    have hd := dedupFrom_length_le r.fetched s.seen
    have hmp : maxPending = 10 := rfl
    refine ⟨?_, ?_, ?_⟩
    · show (s.pending ++ dedupFrom s.seen r.fetched).length ≤ maxPending - 1 + k
      rw [List.length_append]
      omega
    · intro hf
      have hf' : s.inFlight - 1 = 1 := hf
      exact absurd hf' (by omega)
    · show s.inFlight - 1 ≤ 1
      omega
  · have hlt : rest.length < s.pending.length := by rw [hpend]; simp
    refine ⟨?_, ?_, hone⟩
    · show rest.length ≤ maxPending - 1 + k
      omega
    · intro h1
      have h1' : s.inFlight = 1 := h1
      have := hroom h1'
      show rest.length < maxPending
      omega

/-- C2 amended: the pending queue can exceed maxPending only by the
contents of a single fetch batch.  If every successful fetch returns at
most k items, the queue never holds more than maxPending - 1 + k items,
and it is strictly below maxPending whenever a fetch is in flight; with
single-item batches (k = 1) the queue therefore never exceeds
maxPending.  The bound claimed for arbitrary batch sizes is refuted by
c2_pending_bound_counterexample. -/
theorem c2_pending_bound (k : Nat) (es : List LoopEvent) (s' : LoopState)
    (hb : ∀ e ∈ es, batchLe k e = true) (h : run initState es = some s') :
    s'.pending.length ≤ maxPending - 1 + k ∧
    (s'.inFlight = 1 → s'.pending.length < maxPending) := by
  have hinit : BoundInv k initState := by
    refine ⟨by simp [initState, maxPending], ?_, by simp [initState]⟩
    intro h1
    simp [initState] at h1
  have hinv := run_inv_ev (fun e => batchLe k e = true) (BoundInv k)
    (boundInv_step k) es initState s' hb hinit h
  exact ⟨hinv.1, hinv.2.1⟩

/-- C2 counterexample: a fetch armed with an empty queue may return eleven
distinct items at once, after which the queue holds eleven items — more
than maxPending.  The claim that the queue never exceeds maxPending for
any fetch batch size is therefore false of the code: the room check
guards only the arming of a fetch, not the integration of its result. -/
theorem c2_pending_bound_counterexample :
    run initState c2Events = some c2Final ∧
    c2Final.pending.length = 11 ∧ maxPending < c2Final.pending.length :=
  ⟨by decide, by decide, by decide⟩

/-- C2 witness: a run with a single-item fetch batch (k = 1) keeps the
queue within maxPending. -/
theorem c2_pending_bound_witness :
    c2WitFinal.pending.length ≤ maxPending - 1 + 1 ∧
    (c2WitFinal.inFlight = 1 → c2WitFinal.pending.length < maxPending) :=
  c2_pending_bound 1 c2WitEvents c2WitFinal (by decide) (by decide)

/-- C3: at most one fetch is ever in flight in any reachable loop state; a
fetch is started only when no fetch is in flight and the queue has room
(and not before the next-attempt time), incrementing the in-flight count;
and the fetch timer delay equals max 0 (next - now). -/
theorem c3_single_fetch_in_flight :
    (∀ es s', run initState es = some s' → s'.inFlight ≤ 1) ∧
    (∀ s now s', step s (LoopEvent.startFetch now) = some s' →
        s.inFlight = 0 ∧ s.pending.length < maxPending ∧
        s'.inFlight = s.inFlight + 1) ∧
    (∀ next now : Int, fetchDelay next now = max 0 (next - now)) := by
  refine ⟨?_, ?_, ?_⟩
  · intro es s' h
    refine run_inv (fun s => s.inFlight ≤ 1) ?_ es initState s'
      (by simp [initState]) h
    intro s e s1 hst hP
    obtain ⟨-, hcase⟩ := step_cases s e s1 hst
    rcases hcase with ⟨he, rfl⟩ | ⟨now, he, h1, h2, h3, rfl⟩ |
        ⟨r, now, e0, he, h1, h2, rfl⟩ | ⟨r, now, he, h1, h2, rfl⟩ |
        ⟨first, rest, he, hpend, rfl⟩
    · exact hP
    · show s.inFlight + 1 ≤ 1; omega
    · show s.inFlight - 1 ≤ 1; omega
    · show s.inFlight - 1 ≤ 1; omega
    · exact hP
  · intro s now s' h
    obtain ⟨-, hcase⟩ := step_cases s (LoopEvent.startFetch now) s' h
    rcases hcase with ⟨he, rfl⟩ | ⟨now1, he, h1, h2, h3, rfl⟩ |
        ⟨r, now1, e0, he, h1, h2, rfl⟩ | ⟨r, now1, he, h1, h2, rfl⟩ |
        ⟨first, rest, he, hpend, rfl⟩
    · exact LoopEvent.noConfusion he
    · exact ⟨h1, h2, rfl⟩
    · exact LoopEvent.noConfusion he
    · exact LoopEvent.noConfusion he
    · exact LoopEvent.noConfusion he
  · intro next now
    unfold fetchDelay
    by_cases h : next > now
    · rw [if_pos h, max_eq_right (by omega)]
    · rw [if_neg h, max_eq_left (by omega)]

/-- A loop state with one fetch outstanding, reached by arming a fetch
from the initial state. -/
def c3State : LoopState :=
  { pending := [], next := 0, err := none, seen := [], inFlight := 1,
    closed := false, delivered := [], closeResult := none }

/-- C3 witness: the invariant, the arming guard and the delay formula at
concrete inputs. -/
theorem c3_single_fetch_in_flight_witness :
    c3State.inFlight ≤ 1 ∧
    (initState.inFlight = 0 ∧ initState.pending.length < maxPending ∧
      c3State.inFlight = initState.inFlight + 1) ∧
    fetchDelay 7 3 = max 0 (7 - 3) :=
  ⟨c3_single_fetch_in_flight.1 [LoopEvent.startFetch 0] c3State (by decide),
   c3_single_fetch_in_flight.2.1 initState 0 c3State (by decide),
   c3_single_fetch_in_flight.2.2 7 3⟩

/-- C4: a fetch completing with a failure leaves the queue, the seen set
and the delivered history untouched, records the failure as the last
error, schedules the next attempt exactly 10 seconds from now — the same
fixed delay whatever came before, with no exponential growth — and does
not terminate the loop; likewise the naive loop records the failure and
goes back to the top of its loop without closing the stream or emitting
anything. -/
theorem c4_fetch_failure :
    (∀ s r now e0 s', r.err = some e0 →
        step s (LoopEvent.fetchDone r now) = some s' →
        s'.pending = s.pending ∧ s'.seen = s.seen ∧ s'.err = some e0 ∧
        s'.next = now + 10 * second ∧ s'.closed = false ∧
        s'.delivered = s.delivered) ∧
    (∀ ns e0 ns', naiveStep ns (NaiveEvent.fetchFailure e0) = some ns' →
        ns'.err = some e0 ∧ ns'.delivered = ns.delivered ∧
        ns'.streamClosed = ns.streamClosed ∧ ns'.closed = ns.closed ∧
        ns'.phase = NaivePhase.top) := by
  constructor
  · intro s r now e0 s' herr h
    obtain ⟨hclosed, hcase⟩ := step_cases s (LoopEvent.fetchDone r now) s' h
    rcases hcase with ⟨he, rfl⟩ | ⟨now1, he, h1, h2, h3, rfl⟩ |
        ⟨r1, now1, e1, he, h1, h2, rfl⟩ | ⟨r1, now1, he, h1, h2, rfl⟩ |
        ⟨first, rest, he, hpend, rfl⟩
    · exact LoopEvent.noConfusion he
    · exact LoopEvent.noConfusion he
    · obtain ⟨rfl, rfl⟩ : r1 = r ∧ now1 = now := by
        cases he; exact ⟨rfl, rfl⟩
      have he0 : e1 = e0 := by
        rw [herr] at h2
        exact (Option.some.inj h2).symm
      subst he0
      exact ⟨rfl, rfl, rfl, rfl, hclosed, rfl⟩
    · obtain ⟨rfl, -⟩ : r1 = r ∧ now1 = now := by
        cases he; exact ⟨rfl, rfl⟩
      rw [herr] at h2
      exact Option.noConfusion h2
    · exact LoopEvent.noConfusion he
  · intro ns e0 ns' h
    unfold naiveStep at h
    cases hph : ns.phase with
    | fetching =>
        rw [hph] at h
        dsimp only at h
        rw [← Option.some.inj h]
        exact ⟨rfl, rfl, rfl, rfl, rfl⟩
    | top => rw [hph] at h; exact Option.noConfusion h
    | sending remaining => rw [hph] at h; exact Option.noConfusion h
    | halted => rw [hph] at h; exact Option.noConfusion h

/-- C4 witness: a concrete in-flight fetch fails with error boom at time
7; the state changes exactly as claimed. -/
theorem c4_fetch_failure_witness :
    c4End.pending = c4Start.pending ∧ c4End.seen = c4Start.seen ∧
    c4End.err = some "boom" ∧ c4End.next = 7 + 10 * second ∧
    c4End.closed = false ∧ c4End.delivered = c4Start.delivered :=
  c4_fetch_failure.1 c4Start { fetched := [], next := 0, err := some "boom" }
    7 "boom" c4End rfl (by decide)

/-- The error invariant of sub.loop: the error variable holds the error of
the most recent completed fetch, and a close result exists only once the
loop has acknowledged and closed. -/
def ErrInv (pre : List LoopEvent) (s : LoopState) : Prop :=
  s.err = lastFetchErr pre ∧ (s.closeResult.isSome = true → s.closed = true)

/-- Every enabled loop step preserves the error invariant. -/
theorem errInv_step (pre : List LoopEvent) (s : LoopState) (e : LoopEvent)
    (s' : LoopState) (h : step s e = some s') (hP : ErrInv pre s) :
    ErrInv (pre ++ [e]) s' := by
  obtain ⟨hclosed, hcase⟩ := step_cases s e s' h
  obtain ⟨herr, hcr⟩ := hP
  rcases hcase with ⟨he, rfl⟩ | ⟨now, he, h1, h2, h3, rfl⟩ |
      ⟨r, now, e0, he, h1, h2, rfl⟩ | ⟨r, now, he, h1, h2, rfl⟩ |
      ⟨first, rest, he, hpend, rfl⟩
  · subst he
    refine ⟨?_, fun _ => rfl⟩
    show s.err = lastFetchErr (pre ++ [LoopEvent.closeReq])
    simpa [lastFetchErr, List.foldl_append] using herr
  · subst he
    refine ⟨?_, ?_⟩
    · show s.err = lastFetchErr (pre ++ [LoopEvent.startFetch now])
      simpa [lastFetchErr, List.foldl_append] using herr
    · intro hs
      exact absurd (hcr hs) (by simp [hclosed])
  · subst he
    refine ⟨?_, ?_⟩
    · show some e0 = lastFetchErr (pre ++ [LoopEvent.fetchDone r now])
      simp [lastFetchErr, List.foldl_append, h2]
    · intro hs
      exact absurd (hcr hs) (by simp [hclosed])
  · subst he
    refine ⟨?_, ?_⟩
    · show (none : Option String) = lastFetchErr (pre ++ [LoopEvent.fetchDone r now])
      simp [lastFetchErr, List.foldl_append, h2]
    · intro hs
      exact absurd (hcr hs) (by simp [hclosed])
  · subst he
    refine ⟨?_, ?_⟩
    · show s.err = lastFetchErr (pre ++ [LoopEvent.deliver])
      simpa [lastFetchErr, List.foldl_append] using herr
    · intro hs
      exact absurd (hcr hs) (by simp [hclosed])

/-- C5 amended: Close blocks until the loop acknowledges — the close
result is produced only by the loop's own close handling, which
simultaneously transitions to Closed — and the value returned is the
error of the most recent completed fetch: none if no fetch has completed
or the most recent completed fetch succeeded, a successful fetch having
overwritten any earlier recorded failure (see the counterexample for the
original phrasing).  Once closed, no loop event is enabled, so the
updates stream never again yields an item. -/
theorem c5_close_semantics :
    (∀ s s', step s LoopEvent.closeReq = some s' →
        s'.closed = true ∧ s'.closeResult = some s.err) ∧
    (∀ s e, s.closed = true → step s e = none) ∧
    (∀ es s', run initState es = some s' →
        s'.err = lastFetchErr es ∧
        (s'.closeResult.isSome = true → s'.closed = true)) := by
  refine ⟨?_, ?_, ?_⟩
  · intro s s' h
    obtain ⟨-, hcase⟩ := step_cases s LoopEvent.closeReq s' h
    rcases hcase with ⟨he, rfl⟩ | ⟨now, he, h1, h2, h3, rfl⟩ |
        ⟨r, now, e0, he, h1, h2, rfl⟩ | ⟨r, now, he, h1, h2, rfl⟩ |
        ⟨first, rest, he, hpend, rfl⟩
    · exact ⟨rfl, rfl⟩
    · exact LoopEvent.noConfusion he
    · exact LoopEvent.noConfusion he
    · exact LoopEvent.noConfusion he
    · exact LoopEvent.noConfusion he
  · intro s e hclosed
    unfold step
    rw [if_pos hclosed]
  · intro es s' h
    have hinit : ErrInv [] initState := by
      constructor
      · simp [initState, lastFetchErr]
      · intro hs
        simp [initState] at hs
    have hinv : ErrInv ([] ++ es) s' :=
      run_inv_trace ErrInv errInv_step es [] initState s' hinit h
    rw [List.nil_append] at hinv
    exact hinv

/-- The loop state right after the initial state acknowledges a Close. -/
def c5WClosed : LoopState :=
  { pending := [], next := 0, err := none, seen := [], inFlight := 0,
    closed := true, delivered := [], closeResult := some none }

/-- C5 witness: a concrete Close acknowledgment, the terminal behavior of
the closed state, and the close result of a concrete run. -/
theorem c5_close_semantics_witness :
    c5WClosed.closed = true ∧ c5WClosed.closeResult = some none ∧
    step c5WClosed LoopEvent.deliver = none ∧
    c5Final.err = lastFetchErr c5Events :=
  ⟨(c5_close_semantics.1 initState c5WClosed (by decide)).1,
   (c5_close_semantics.1 initState c5WClosed (by decide)).2,
   c5_close_semantics.2.1 c5WClosed LoopEvent.deliver (by decide),
   (c5_close_semantics.2.2 c5Events c5Final (by decide)).1⟩

/-- C5 counterexample: a fetch fails with error boom, a later fetch
succeeds, and Close then returns none — although a fetch has failed
during the subscription's lifetime.  The success overwrote the recorded
failure, so Close does not return the most recently recorded fetch error
in the sense of the claim (which allows none only when no fetch has
failed). -/
theorem c5_close_semantics_counterexample :
    run initState c5Events = some c5Final ∧
    LoopEvent.fetchDone { fetched := [], next := 0, err := some "boom" } 0
      ∈ c5Events ∧
    c5Final.closeResult = some none :=
  ⟨by decide, by decide, by decide⟩

/-- Once naiveMerge.Close has recorded a non-nil error, later children
cannot overwrite it. -/
theorem naiveMergeCloseErr_some (x : String) (errs : List (Option String)) :
    errs.foldl (fun err e => if err = none ∧ ¬e = none then e else err)
      (some x) = some x := by
  induction errs with
  | nil => rfl
  | cons e es ih =>
      simp only [List.foldl_cons]
      have hf : (if (some x = none ∧ ¬e = none) then e else some x) = some x := by
        simp
      rw [hf]
      exact ih

/-- The naiveMerge.Close error fold returns the first non-nil error of the
children, none if every child closed without error. -/
theorem naiveMergeCloseErr_eq (errs : List (Option String)) :
    naiveMergeCloseErr errs = (errs.filterMap id).head? := by
  induction errs with
  | nil => rfl
  | cons e es ih =>
      cases e with
      | none =>
          simpa [naiveMergeCloseErr, List.foldl_cons] using ih
      | some x =>
          simp [naiveMergeCloseErr, List.foldl_cons, naiveMergeCloseErr_some]

/-- Setting the element just past a true-prefix to true extends the
prefix. -/
theorem replicate_set_true (pc : Nat) (tl : List Bool) :
    (List.replicate pc true ++ false :: tl).set pc true
      = List.replicate (pc + 1) true ++ tl := by
  induction pc with
  | zero => simp [List.set]
  | succ k ih =>
      simp only [List.replicate_succ, List.cons_append, List.set, List.append_eq]
      rw [ih]
      simp [List.replicate_succ]

/-- The shutdown invariant of naiveMerge: Close closes children in order,
so the closed flags are a prefix of trues; the return value, once
produced, is the error fold over all children, and it is produced — like
the closing of the output — only after every child has been closed. -/
def MergeCloseInv (ce : List (Option String)) (n : Nat) (st : MergeState) : Prop :=
  st.childClosed.length = n ∧ st.closerPC ≤ n ∧
  st.childClosed = List.replicate st.closerPC true ++
    List.replicate (n - st.closerPC) false ∧
  (st.closeReturned.isSome = true →
      st.closeReturned = some (naiveMergeCloseErr ce) ∧ st.closerPC = n) ∧
  (st.outputClosed = true → st.closerPC = n)

/-- Every enabled merge step preserves the shutdown invariant. -/
theorem mergeCloseInv_step (ce : List (Option String)) (n : Nat)
    (st : MergeState) (e : MergeEvent) (st' : MergeState)
    (h : mergeStep ce st e = some st') (hP : MergeCloseInv ce n st) :
    MergeCloseInv ce n st' := by
  obtain ⟨hlen, hpc, hrep, hcr, hoc⟩ := hP
  cases e with
  | recv i =>
      unfold mergeStep at h
      dsimp only at h
      split at h
      all_goals first
        | exact Option.noConfusion h
        | (rw [← Option.some.inj h]; exact ⟨hlen, hpc, hrep, hcr, hoc⟩)
  | send i =>
      unfold mergeStep at h
      dsimp only at h
      split at h
      all_goals first
        | exact Option.noConfusion h
        | (split at h <;>
            (rw [← Option.some.inj h]; exact ⟨hlen, hpc, hrep, hcr, hoc⟩))
  | exitFwd i =>
      unfold mergeStep at h
      dsimp only at h
      split at h
      all_goals first
        | exact Option.noConfusion h
        | (rw [← Option.some.inj h]; exact ⟨hlen, hpc, hrep, hcr, hoc⟩)
  | closeChild =>
      unfold mergeStep at h
      dsimp only at h
      by_cases hlt : st.closerPC < st.childClosed.length
      · rw [if_pos hlt] at h
        rw [← Option.some.inj h]
        have hlt' : st.closerPC < n := hlen ▸ hlt
        refine ⟨?_, ?_, ?_, ?_, ?_⟩
        · show (st.childClosed.set st.closerPC true).length = n
          rw [List.length_set]
          exact hlen
        · show st.closerPC + 1 ≤ n
          omega
        · show st.childClosed.set st.closerPC true
            = List.replicate (st.closerPC + 1) true ++
              List.replicate (n - (st.closerPC + 1)) false
          rw [hrep]
          have hsub : n - st.closerPC = (n - (st.closerPC + 1)) + 1 := by omega
          rw [hsub, List.replicate_succ]
          exact replicate_set_true st.closerPC _
        · intro hs
          exact absurd (hcr hs).2 (by omega)
        · intro hoc'
          exact absurd (hoc hoc') (by omega)
      · rw [if_neg hlt] at h
        exact Option.noConfusion h
  | closeOutput =>
      unfold mergeStep at h
      dsimp only at h
      by_cases hcond : st.closerPC = st.childClosed.length ∧
          st.outputClosed = false
      · rw [if_pos hcond] at h
        rw [← Option.some.inj h]
        have hpcn : st.closerPC = n := by rw [hcond.1, hlen]
        exact ⟨hlen, hpc, hrep, fun _ => ⟨rfl, hpcn⟩, fun _ => hpcn⟩
      · rw [if_neg hcond] at h
        exact Option.noConfusion h

/-- The shutdown invariant holds in every state a merge run reaches from a
fresh naiveMerge. -/
theorem mergeCloseInv_reach (ce : List (Option String))
    (streams : List (List Item)) (es : List MergeEvent) (st' : MergeState)
    (h : mergeRun ce (mergeInit streams) es = some st') :
    MergeCloseInv ce streams.length st' := by
  refine mergeRun_inv ce (MergeCloseInv ce streams.length)
    (mergeCloseInv_step ce streams.length) es (mergeInit streams) st' ?_ h
  refine ⟨?_, ?_, ?_, ?_, ?_⟩
  · simp [mergeInit]
  · simp [mergeInit]
  · simp [mergeInit]
  · intro hs
    simp [mergeInit] at hs
  · intro hoc
    simp [mergeInit] at hoc

/-- C6: naiveMerge.Close returns the first non-nil error among the
children's close results, discarding the rest (none when every child
closed cleanly), and it can only return — having closed children strictly
in order, each child's Close blocking it in turn — once every child has
been closed. -/
theorem c6_merge_close_first_error :
    (∀ errs : List (Option String),
        naiveMergeCloseErr errs = (errs.filterMap id).head?) ∧
    (∀ ce streams es st', mergeRun ce (mergeInit streams) es = some st' →
        st'.closeReturned.isSome = true →
        st'.closeReturned = some (naiveMergeCloseErr ce) ∧
        st'.childClosed = List.replicate streams.length true) := by
  constructor
  · exact naiveMergeCloseErr_eq
  · intro ce streams es st' h hs
    obtain ⟨hlen, hpc, hrep, hcr, hoc⟩ := mergeCloseInv_reach ce streams es st' h
    obtain ⟨hval, hpcn⟩ := hcr hs
    refine ⟨hval, ?_⟩
    rw [hrep, hpcn, Nat.sub_self, List.replicate_zero, List.append_nil]

/-- Children streams for the C6 witness: two children. -/
def c6Streams : List (List Item) := [[], []]

/-- Close errors for the C6 witness: the first child closes cleanly, the
second fails. -/
def c6Errs : List (Option String) := [none, some "boom"]

/-- The C6 witness trace: Close closes both children, then the output. -/
def c6Events : List MergeEvent :=
  [MergeEvent.closeChild, MergeEvent.closeChild, MergeEvent.closeOutput]

/-- The merge state after c6Events. -/
def c6Final : MergeState :=
  { childStreams := [[], []], childClosed := [true, true],
    fwd := [FwdState.waiting, FwdState.waiting], closerPC := 2,
    outputClosed := true, sent := [], closeReturned := some (some "boom"),
    panicked := false }

/-- C6 witness: with children closing with errors none then boom, the
coordinator's Close returns boom, and both children were closed first. -/
theorem c6_merge_close_first_error_witness :
    naiveMergeCloseErr c6Errs = (c6Errs.filterMap id).head? ∧
    (c6Final.closeReturned = some (naiveMergeCloseErr c6Errs) ∧
      c6Final.childClosed = List.replicate c6Streams.length true) :=
  ⟨c6_merge_close_first_error.1 c6Errs,
   c6_merge_close_first_error.2 c6Errs c6Streams c6Events c6Final
     (by decide) (by decide)⟩

/-- C7: a naiveMerge over zero children spawns no forwarders; its Close
has no child to visit, so closing the output is enabled immediately and
returns no error, and no run can ever place an item on the merged
output — the stream produces nothing, and is exhausted once closed. -/
theorem c7_zero_children_merge :
    naiveMergeCloseErr [] = none ∧
    mergeStep [] (mergeInit []) MergeEvent.closeOutput = some c7Closed ∧
    c7Closed.closeReturned = some none ∧ c7Closed.outputClosed = true ∧
    (∀ es st', mergeRun [] (mergeInit []) es = some st' →
        st'.sent = [] ∧ st'.fwd = []) := by
  refine ⟨rfl, by decide, rfl, rfl, ?_⟩
  intro es st' h
  have key : ∀ st e st1, mergeStep [] st e = some st1 →
      (st.sent = [] ∧ st.fwd = [] ∧ st.childStreams = [] ∧
        st.childClosed = ([] : List Bool)) →
      (st1.sent = [] ∧ st1.fwd = [] ∧ st1.childStreams = [] ∧
        st1.childClosed = ([] : List Bool)) := by
    intro st e st1 h1 hP
    obtain ⟨hs, hf, hcs, hcc⟩ := hP
    cases e with
    | recv i =>
        unfold mergeStep at h1
        dsimp only at h1
        rw [hf] at h1
        simp only [List.getElem?_nil] at h1
        exact Option.noConfusion h1
    | send i =>
        unfold mergeStep at h1
        dsimp only at h1
        rw [hf] at h1
        simp only [List.getElem?_nil] at h1
        exact Option.noConfusion h1
    | exitFwd i =>
        unfold mergeStep at h1
        dsimp only at h1
        rw [hf] at h1
        simp only [List.getElem?_nil] at h1
        exact Option.noConfusion h1
    | closeChild =>
        unfold mergeStep at h1
        dsimp only at h1
        rw [hcc] at h1
        simp at h1
    | closeOutput =>
        unfold mergeStep at h1
        dsimp only at h1
        by_cases hcond : st.closerPC = st.childClosed.length ∧
            st.outputClosed = false
        · rw [if_pos hcond] at h1
          rw [← Option.some.inj h1]
          exact ⟨hs, hf, hcs, hcc⟩
        · rw [if_neg hcond] at h1
          exact Option.noConfusion h1
  have hres := mergeRun_inv []
    (fun st => st.sent = [] ∧ st.fwd = [] ∧ st.childStreams = [] ∧
      st.childClosed = ([] : List Bool))
    key es (mergeInit []) st' ⟨rfl, rfl, rfl, rfl⟩ h
  exact ⟨hres.1, hres.2.1⟩

/-- C7 witness: the empty run and the single-step close both satisfy the
zero-children contract. -/
theorem c7_zero_children_merge_witness :
    (mergeInit []).sent = [] ∧ (mergeInit []).fwd = [] :=
  (c7_zero_children_merge.2.2.2.2 [] (mergeInit []) (by decide))

/-- C8 counterexample: one child whose stream yields itemA.  The forwarder
receives itemA and, before it can send, Close closes the child and then
the output.  The output is thus closed while the forwarding task has not
exited — it still holds an undelivered item — refuting the claim that the
output is closed only after every forwarding task has exited and that
Close waits for them.  (The naive forwarders observe no cancellation
signal at all; they only ever stop when their child's stream closes.) -/
theorem c8_merge_shutdown_counterexample :
    mergeRun [none] (mergeInit [[itemA]]) c8Events = some c8Final ∧
    c8Final.outputClosed = true ∧
    c8Final.fwd = [FwdState.holding itemA] ∧
    (c8Final.fwd.all fun f => decide (f = FwdState.exited)) = false :=
  ⟨by decide, by decide, by decide, by decide⟩

/-- C8 amended: naiveMerge's Close closes the merged output only after
every child has been closed, but it does not wait for the forwarding
tasks: a forwarder may still hold an undelivered item when the output is
closed, and its subsequent send to the closed output panics. -/
theorem c8_merge_shutdown :
    (∀ ce streams es st', mergeRun ce (mergeInit streams) es = some st' →
        st'.outputClosed = true →
        st'.childClosed = List.replicate streams.length true) ∧
    (mergeRun [none] (mergeInit [[itemA]]) c8Events = some c8Final ∧
     c8Final.outputClosed = true ∧ c8Final.fwd = [FwdState.holding itemA] ∧
     mergeStep [none] c8Final (MergeEvent.send 0)
       = some { c8Final with panicked := true }) := by
  constructor
  · intro ce streams es st' h hoc'
    obtain ⟨hlen, hpc, hrep, hcr, hoc⟩ := mergeCloseInv_reach ce streams es st' h
    have hpcn := hoc hoc'
    rw [hrep, hpcn, Nat.sub_self, List.replicate_zero, List.append_nil]
  · exact ⟨by decide, by decide, by decide, by decide⟩

/-- C8 witness: the amended guarantee at the concrete race trace — when
the output closed, the only child had indeed been closed. -/
theorem c8_merge_shutdown_witness :
    c8Final.childClosed = List.replicate ([[itemA]] : List (List Item)).length true :=
  c8_merge_shutdown.1 [none] [[itemA]] c8Events c8Final (by decide) (by decide)

/-- After n calls, the fake fetcher has generated exactly items 0 to n-1,
in order, regardless of the duplicates flag, the call times or the random
draws. -/
theorem fakeRun_closed (dup : Bool) (domain : String) (nows rands : Nat → Int) :
    ∀ n, fakeRun dup { channel := domain, items := [] } nows rands n
      = { channel := domain, items := (List.range n).map (genItem domain) } := by
  intro n
  induction n with
  | zero => simp [fakeRun]
  | succ k ih =>
      show (fakeFetcher.Fetch dup
        (fakeRun dup { channel := domain, items := [] } nows rands k)
        (nows k) (rands k)).2 = _
      rw [ih]
      simp [fakeFetcher.Fetch, genItem, List.range_succ]

/-- C9: fakeFetcher.Fetch never fails; on its n-th call (counting from
zero) it returns, when FakeDuplicates is false, exactly one item whose
Channel is the domain, whose Title is Item n, and whose GUID is the
Channel, a slash, and the Title; when FakeDuplicates is true it returns
all n+1 items generated so far, in generation order. -/
theorem c9_fake_fetcher (dup : Bool) (domain : String)
    (nows rands : Nat → Int) (n : Nat) :
    (fakeFetcher.Fetch dup
        (fakeRun dup { channel := domain, items := [] } nows rands n)
        (nows n) (rands n)).1.err = none ∧
    (dup = false →
      (fakeFetcher.Fetch dup
          (fakeRun dup { channel := domain, items := [] } nows rands n)
          (nows n) (rands n)).1.items = [genItem domain n]) ∧
    (dup = true →
      (fakeFetcher.Fetch dup
          (fakeRun dup { channel := domain, items := [] } nows rands n)
          (nows n) (rands n)).1.items = (List.range (n + 1)).map (genItem domain)) := by
  rw [fakeRun_closed]
  refine ⟨?_, ?_, ?_⟩
  · simp [fakeFetcher.Fetch]
  · intro hd
    subst hd
    simp [fakeFetcher.Fetch, genItem]
  · intro hd
    subst hd
    simp [fakeFetcher.Fetch, genItem, List.range_succ]

/-- C9 witness: the third call (n = 2) on domain d, with and without the
duplicates flag. -/
theorem c9_fake_fetcher_witness :
    (fakeFetcher.Fetch false
        (fakeRun false { channel := "d", items := [] } (fun _ => 0) (fun _ => 0) 2)
        0 0).1.items = [genItem "d" 2] ∧
    (fakeFetcher.Fetch true
        (fakeRun true { channel := "d", items := [] } (fun _ => 0) (fun _ => 0) 2)
        0 0).1.items = (List.range 3).map (genItem "d") :=
  ⟨(c9_fake_fetcher false "d" (fun _ => 0) (fun _ => 0) 2).2.1 rfl,
   (c9_fake_fetcher true "d" (fun _ => 0) (fun _ => 0) 2).2.2 rfl⟩

/-- C10: naiveSub.Close is enabled in every state and is a single
non-blocking assignment: it sets the closed flag and immediately returns
the currently recorded error, with no rendezvous and without touching the
stream (the resulting state differs only in the flag and the recorded
return).  The stream is closed into the halted state only by the loop's
own flag check at the top of an iteration.  Consequently, after Close
returns mid-batch, the loop still delivers the remaining items of the
batch before it next reaches the top, observes the flag, and closes the
stream — exhibited by the concrete run. -/
theorem c10_naive_close_nonblocking :
    (∀ s, naiveStep s NaiveEvent.closeCall
        = some { s with closed := true, closeRet := s.closeRet ++ [s.err] }) ∧
    (∀ s e s', naiveStep s e = some s' → s'.streamClosed = true →
        s.streamClosed = true ∨
        (e = NaiveEvent.checkClosed ∧ s.phase = NaivePhase.top ∧
          s.closed = true)) ∧
    (naiveRun naiveInit c10Pre = some c10Mid ∧ c10Mid.closed = true ∧
        c10Mid.closeRet = [none] ∧ c10Mid.streamClosed = false ∧
        naiveRun c10Mid c10Post = some c10Fin ∧
        c10Fin.delivered = c10Mid.delivered ++ [itemB] ∧
        c10Fin.streamClosed = true) := by
  refine ⟨fun s => rfl, ?_, by decide⟩
  intro s e s' h hsc
  cases e with
  | closeCall =>
      unfold naiveStep at h
      dsimp only at h
      rw [← Option.some.inj h] at hsc
      exact Or.inl hsc
  | checkClosed =>
      unfold naiveStep at h
      dsimp only at h
      cases hph : s.phase with
      | top =>
          rw [hph] at h
          dsimp only at h
          by_cases hcl : s.closed = true
          · exact Or.inr ⟨rfl, rfl, hcl⟩
          · rw [if_neg hcl] at h
            exact Option.noConfusion h
      | fetching => rw [hph] at h; exact Option.noConfusion h
      | sending remaining => rw [hph] at h; exact Option.noConfusion h
      | halted => rw [hph] at h; exact Option.noConfusion h
  | checkOpen =>
      unfold naiveStep at h
      dsimp only at h
      cases hph : s.phase with
      | top =>
          rw [hph] at h
          dsimp only at h
          by_cases hcl : s.closed = true
          · rw [if_pos hcl] at h
            exact Option.noConfusion h
          · rw [if_neg hcl] at h
            rw [← Option.some.inj h] at hsc
            exact Or.inl hsc
      | fetching => rw [hph] at h; exact Option.noConfusion h
      | sending remaining => rw [hph] at h; exact Option.noConfusion h
      | halted => rw [hph] at h; exact Option.noConfusion h
  | fetchSuccess items next =>
      unfold naiveStep at h
      dsimp only at h
      cases hph : s.phase with
      | fetching =>
          rw [hph] at h
          dsimp only at h
          rw [← Option.some.inj h] at hsc
          exact Or.inl hsc
      | top => rw [hph] at h; exact Option.noConfusion h
      | sending remaining => rw [hph] at h; exact Option.noConfusion h
      | halted => rw [hph] at h; exact Option.noConfusion h
  | fetchFailure e0 =>
      unfold naiveStep at h
      dsimp only at h
      cases hph : s.phase with
      | fetching =>
          rw [hph] at h
          dsimp only at h
          rw [← Option.some.inj h] at hsc
          exact Or.inl hsc
      | top => rw [hph] at h; exact Option.noConfusion h
      | sending remaining => rw [hph] at h; exact Option.noConfusion h
      | halted => rw [hph] at h; exact Option.noConfusion h
  | sendOne =>
      unfold naiveStep at h
      dsimp only at h
      cases hph : s.phase with
      | sending remaining =>
          cases remaining with
          | nil => rw [hph] at h; exact Option.noConfusion h
          | cons first rest =>
              rw [hph] at h
              dsimp only at h
              rw [← Option.some.inj h] at hsc
              exact Or.inl hsc
      | top => rw [hph] at h; exact Option.noConfusion h
      | fetching => rw [hph] at h; exact Option.noConfusion h
      | halted => rw [hph] at h; exact Option.noConfusion h
  | batchEnd =>
      unfold naiveStep at h
      dsimp only at h
      cases hph : s.phase with
      | sending remaining =>
          cases remaining with
          | nil =>
              rw [hph] at h
              dsimp only at h
              rw [← Option.some.inj h] at hsc
              exact Or.inl hsc
          | cons first rest => rw [hph] at h; exact Option.noConfusion h
      | top => rw [hph] at h; exact Option.noConfusion h
      | fetching => rw [hph] at h; exact Option.noConfusion h
      | halted => rw [hph] at h; exact Option.noConfusion h

/-- c10WitSt right after a further Close call: the flag stays set and the
recorded error is returned again. -/
def c10WitClosed : NaiveState :=
  { closed := true, err := some "boom", streamClosed := false,
    delivered := [itemA], phase := NaivePhase.top,
    closeRet := [some "boom", some "boom"] }

/-- C10 witness: Close applied to a concrete mid-loop state, and the flag
check at the top of the loop with the flag set. -/
theorem c10_naive_close_nonblocking_witness :
    naiveStep c10WitSt NaiveEvent.closeCall = some c10WitClosed ∧
    (c10WitSt.streamClosed = true ∨
      (NaiveEvent.checkClosed = NaiveEvent.checkClosed ∧
        c10WitSt.phase = NaivePhase.top ∧ c10WitSt.closed = true)) :=
  ⟨c10_naive_close_nonblocking.1 c10WitSt,
   c10_naive_close_nonblocking.2.1 c10WitSt NaiveEvent.checkClosed
     { c10WitSt with streamClosed := true, phase := NaivePhase.halted }
     (by decide) (by decide)⟩

end RSS
